import Mathlib

/-!
Verification of the HRG fuel-request application (src/index.tsx).

The TypeScript source is a single-file React application.  Its pure data
manipulation (list filtering, mapping, sorting, appending) is embedded
directly as Lean functions on lists.  Browser builtins that the code relies
on are modelled explicitly where a property depends on them, each model
documented at its definition: localStorage as an explicit store value,
uuidv4 and Date.now as parameters, JSON.parse by its outcome (a document or
a raised SyntaxError).
-/

/-- Request status enumeration (src/index.tsx:13). -/
inductive RequestStatus
  | Pending
  | Confirmed
  | Completed
  | Cancelled
  deriving DecidableEq

/-- Message sender role (src/index.tsx:8). -/
inductive Sender
  | Client
  | Company
  deriving DecidableEq

/-- Chat message (src/index.tsx:6-11).  `timestamp` models the Date value as
milliseconds since the epoch. -/
structure Message where
  id : String
  sender : Sender
  text : String
  timestamp : Int
  deriving DecidableEq

/-- Fueling request record (src/index.tsx:15-25). -/
structure FuelingRequest where
  id : String
  clientId : String
  standNumber : String
  airline : String
  flightNumber : String
  representativeName : String
  status : RequestStatus
  messages : List Message
  hasUnreadUpdates : Bool
  deriving DecidableEq

/-- Seed dataset (src/index.tsx:28-54).  `now` models Date.now() at module
evaluation time; the two seed messages carry timestamps 5 and 3 minutes in
the past. -/
def initialRequests (now : Int) : List FuelingRequest :=
  [ { id := "req-1", clientId := "client-abc", standNumber := "B7",
      airline := "مصر للطيران", flightNumber := "MS612",
      representativeName := "أحمد محمود", status := .Pending,
      messages := [], hasUnreadUpdates := false },
    { id := "req-2", clientId := "client-xyz", standNumber := "C3",
      airline := "العربية للطيران", flightNumber := "G9-261",
      representativeName := "فاطمة الزهراء", status := .Confirmed,
      messages :=
        [ { id := "msg-1", sender := .Company,
            text := "تم التأكيد، الفريق في الطريق.", timestamp := now - 5 * 60000 },
          { id := "msg-2", sender := .Client,
            text := "شكرًا لكم، في الانتظار.", timestamp := now - 3 * 60000 } ],
      hasUnreadUpdates := true } ]

/-- getClientId (src/index.tsx:58-65).  `stored` is the current value under
the key fuelingServiceClientId (`none` models getItem returning null);
`freshId` models the uuidv4() that would be generated.  The source tests the
stored value for JavaScript falsiness (`if (!clientId)`), which holds for
null and for the empty string.  Returns the id handed to the caller together
with the value stored under the key afterwards. -/
def getClientId (stored : Option String) (freshId : String) : String × Option String :=
  match stored with
  | none => (freshId, some freshId)
  | some s => if s = "" then (freshId, some freshId) else (s, some s)

/-- App.updateRequest and CompanyView.updateRequest (src/index.tsx:319-321
and 433-435), both `prev.map(r => r.id === updatedRequest.id ?
updatedRequest : r)`. -/
def updateRequest (updatedRequest : FuelingRequest) (prev : List FuelingRequest) :
    List FuelingRequest :=
  prev.map (fun r => if r.id = updatedRequest.id then updatedRequest else r)

/-- CompanyView.handleStatusChange (src/index.tsx:323-328): find the request
by id and, when found, store it back with the requested status and
hasUnreadUpdates set to true.  There is no check of the current status. -/
def handleStatusChange (requests : List FuelingRequest) (id : String)
    (newStatus : RequestStatus) : List FuelingRequest :=
  match requests.find? (fun r => r.id = id) with
  | some requestToUpdate =>
      updateRequest
        { requestToUpdate with status := newStatus, hasUnreadUpdates := true }
        requests
  | none => requests

/-- CompanyView.handleSendMessage (src/index.tsx:330-340): append a Company
message and set hasUnreadUpdates.  `newId` models uuidv4(), `now` models
new Date(). -/
def companySendMessage (requests : List FuelingRequest) (requestId newId text : String)
    (now : Int) : List FuelingRequest :=
  match requests.find? (fun r => r.id = requestId) with
  | some requestToUpdate =>
      updateRequest
        { requestToUpdate with
            messages := requestToUpdate.messages ++
              [{ id := newId, sender := .Company, text := text, timestamp := now }],
            hasUnreadUpdates := true }
        requests
  | none => requests

/-- ClientView.handleSendMessage (src/index.tsx:253-259): append a Client
message; the hasUnreadUpdates field is not touched. -/
def clientSendMessage (requests : List FuelingRequest) (requestId newId text : String)
    (now : Int) : List FuelingRequest :=
  match requests.find? (fun r => r.id = requestId) with
  | some requestToUpdate =>
      updateRequest
        { requestToUpdate with
            messages := requestToUpdate.messages ++
              [{ id := newId, sender := .Client, text := text, timestamp := now }] }
        requests
  | none => requests

/-- The clear-completed branch of CompanyView.handleConfirmAction
(src/index.tsx:346-349): `prev.filter(r => r.status !== 'Completed')`. -/
def removeCompleted (prev : List FuelingRequest) : List FuelingRequest :=
  prev.filter (fun r => r.status ≠ RequestStatus.Completed)

/-- The four text fields of the request form (src/index.tsx:202-204). -/
structure FormData where
  standNumber : String
  airline : String
  flightNumber : String
  representativeName : String
  deriving DecidableEq

/-- Per-field validation errors (src/index.tsx:205): in the source an error
key is present in the record exactly when validation put a message there. -/
structure FormErrors where
  standNumber : Option String
  airline : Option String
  flightNumber : Option String
  representativeName : Option String
  deriving DecidableEq

/-- The per-field message placed by validateForm (src/index.tsx:224). -/
def requiredFieldMessage : String := "هذا الحقل مطلوب"

/-- Whitespace as recognized by the JavaScript trim on the character set
these fields use. -/
def isJsWhitespace (c : Char) : Bool :=
  c = ' ' || c = '\t' || c = '\n' || c = '\r' || c = '\x0b' || c = '\x0c'

/-- Model of String.prototype.trim: drop leading and trailing whitespace. -/
def trimString (s : String) : String :=
  ⟨((s.data.dropWhile isJsWhitespace).reverse.dropWhile isJsWhitespace).reverse⟩

/-- ClientView.validateForm (src/index.tsx:220-229): a field gets an error
exactly when it is blank after trimming surrounding whitespace. -/
def validateForm (formData : FormData) : FormErrors :=
  { standNumber :=
      if trimString formData.standNumber = "" then some requiredFieldMessage else none,
    airline :=
      if trimString formData.airline = "" then some requiredFieldMessage else none,
    flightNumber :=
      if trimString formData.flightNumber = "" then some requiredFieldMessage else none,
    representativeName :=
      if trimString formData.representativeName = "" then some requiredFieldMessage else none }

/-- Number of error keys, Object.keys(newErrors).length in
src/index.tsx:228. -/
def FormErrors.count (e : FormErrors) : Nat :=
  (if e.standNumber.isSome then 1 else 0) + (if e.airline.isSome then 1 else 0) +
    (if e.flightNumber.isSome then 1 else 0) +
    (if e.representativeName.isSome then 1 else 0)

/-- App.addRequest (src/index.tsx:421-431): the new request gets a fresh id
(`newId` models uuidv4()), the device client id, status Pending, no
messages, no unread flag, and is placed at the front of the collection. -/
def addRequest (newRequestData : FormData) (newId clientId : String)
    (prev : List FuelingRequest) : List FuelingRequest :=
  { id := newId, clientId := clientId,
    standNumber := newRequestData.standNumber,
    airline := newRequestData.airline,
    flightNumber := newRequestData.flightNumber,
    representativeName := newRequestData.representativeName,
    status := .Pending, messages := [], hasUnreadUpdates := false } :: prev

/-- ClientView.handleSubmit (src/index.tsx:231-243): returns early when
validateForm reports any error; otherwise, after the simulated delay,
addRequest runs on the store.  The value is the store once the submission
path has finished. -/
def handleSubmit (formData : FormData) (newId clientId : String)
    (store : List FuelingRequest) : List FuelingRequest :=
  if (validateForm formData).count = 0 then addRequest formData newId clientId store
  else store

/-- The comparator passed to sort in ClientView (src/index.tsx:210):
`(a, b) => a.status === 'Pending' ? -1 : 1`.  It never returns 0 and ignores
its second argument, so it is not a consistent comparator. -/
def pendingComparator (a : FuelingRequest) (_ : FuelingRequest) : Int :=
  if a.status = RequestStatus.Pending then -1 else 1

/-- Binary-search loop of the binary-insertion pass that
Array.prototype.sort performs on short arrays (under 64 elements the run
stack never merges, so the whole array is a single run built this way):
while lo < hi, mid = (lo + hi) / 2; the right bound moves down when
compare(pivot, a[mid]) < 0, else the left bound moves up.  The extra fuel
argument only bounds the iteration count (hi - lo iterations suffice) so the
recursion is structural. -/
def binSearchGo (c : α → α → Int) (pivot : α) (arr : List α) :
    Nat → Nat → Nat → Nat
  | 0, lo, _ => lo
  | fuel + 1, lo, hi =>
      if lo < hi then
        let mid := (lo + hi) / 2
        if c pivot (arr.getD mid pivot) < 0 then binSearchGo c pivot arr fuel lo mid
        else binSearchGo c pivot arr fuel (mid + 1) hi
      else lo

/-- Insertion position for `pivot` in the sorted list `arr`. -/
def binSearchPos (c : α → α → Int) (pivot : α) (arr : List α) : Nat :=
  binSearchGo c pivot arr arr.length 0 arr.length

/-- Insert `x` at index `i`. -/
def insertAtIdx (l : List α) (i : Nat) (x : α) : List α :=
  l.take i ++ x :: l.drop i

/-- One binary-insertion step of the engine sort. -/
def binaryInsert (c : α → α → Int) (sorted : List α) (x : α) : List α :=
  insertAtIdx sorted (binSearchPos c x sorted) x

/-- Continuation of a strictly descending initial run: the run extends while
compare(next, prev) < 0. -/
def descRun (c : α → α → Int) (prev : α) : List α → List α × List α
  | [] => ([], [])
  | z :: zs =>
      if c z prev < 0 then
        let p := descRun c z zs
        (z :: p.1, p.2)
      else ([], z :: zs)

/-- Continuation of an ascending initial run: the run extends while
compare(next, prev) ≥ 0. -/
def ascRun (c : α → α → Int) (prev : α) : List α → List α × List α
  | [] => ([], [])
  | z :: zs =>
      if c z prev < 0 then ([], z :: zs)
      else
        let p := ascRun c z zs
        (z :: p.1, p.2)

/-- Initial-run detection of the engine sort (countRunAndMakeAscending): a
strictly descending initial run is reversed in place, an ascending one is
kept. -/
def makeAscendingRun (c : α → α → Int) : List α → List α × List α
  | [] => ([], [])
  | [x] => ([x], [])
  | x :: y :: rest =>
      if c y x < 0 then
        let p := descRun c y rest
        ((x :: y :: p.1).reverse, p.2)
      else
        let p := ascRun c y rest
        (x :: y :: p.1, p.2)

/-- Array.prototype.sort as executed on arrays shorter than 64 elements:
initial-run detection followed by binary insertion of the remaining
elements into the run.  The comparator used by the source is inconsistent,
so ECMAScript leaves the resulting order implementation-defined; this
definition follows the code path of the dominant engine, for which arrays
this short form a single run and no merge happens. -/
def engineSort (c : α → α → Int) (l : List α) : List α :=
  let p := makeAscendingRun c l
  p.2.foldl (binaryInsert c) p.1

/-- ClientView.clientRequests (src/index.tsx:210):
`requests.filter(r => r.clientId === clientId).sort(pendingComparator)`. -/
def clientRequests (requests : List FuelingRequest) (clientId : String) :
    List FuelingRequest :=
  engineSort pendingComparator (requests.filter (fun r => r.clientId = clientId))

/-- The Operator View renders the full collection in store order
(src/index.tsx:373-385): `requests.map(...)` with no filter and no sort. -/
def companyVisibleRequests (requests : List FuelingRequest) : List FuelingRequest :=
  requests

/-- The value found under the persisted-collection key at startup.
localStorage stores a string blob; JSON.parse is a host builtin that either
deserializes the blob into a document or raises a SyntaxError, so a present
blob is modelled by that outcome. -/
inductive StoredBlob
  | absent
  | malformed
  | parsed (requests : List FuelingRequest)

/-- The lazy state initializer of App (src/index.tsx:397-404):
`savedRequests ? JSON.parse(savedRequests, reviver) : initialRequests`.
The JSON.parse call is not wrapped in try/catch, so a SyntaxError raised on
a malformed blob propagates out of the initializer. -/
def appInitRequests (now : Int) : StoredBlob → Except String (List FuelingRequest)
  | .absent => Except.ok (initialRequests now)
  | .malformed => Except.error "SyntaxError"
  | .parsed rs => Except.ok rs

/-- Browser local storage as seen by the persistence effect: the document
stored under the fuelingRequests key (JSON.stringify never throws on these
records, so values are modelled at the document level) plus a flag telling
whether the next write exceeds the storage quota, in which case setItem
raises a QuotaExceededError. -/
structure BrowserStorage where
  fuelingRequests : Option (List FuelingRequest)
  quotaExceeded : Bool
  deriving DecidableEq

/-- The persistence effect of App (src/index.tsx:409-412):
`localStorage.setItem('fuelingRequests', JSON.stringify(requests))`.  The
call is not wrapped in try/catch, so a storage failure propagates
uncaught. -/
def persistRequestsEffect (storage : BrowserStorage)
    (requests : List FuelingRequest) : Except String BrowserStorage :=
  if storage.quotaExceeded then Except.error "QuotaExceededError"
  else Except.ok { storage with fuelingRequests := some requests }

/-- In-memory collection plus the mirrored browser storage. -/
structure AppState where
  requests : List FuelingRequest
  storage : BrowserStorage
  deriving DecidableEq

/-- One accepted mutation of the collection followed by the persistence
effect (src/index.tsx:409-412): the new in-memory collection is set, then
mirrored to storage; an uncaught setItem failure aborts the commit with the
raised error. -/
def commitRequests (st : AppState) (newRequests : List FuelingRequest) :
    Except String AppState :=
  (persistRequestsEffect st.storage newRequests).map
    (fun s => { requests := newRequests, storage := s })

/-- One chat-append interaction, from either role (src/index.tsx:253-259 and
330-340); `msgId` models the uuidv4() generated for the message and `now`
the Date at which it happens. -/
inductive AppendOp
  | clientMsg (requestId msgId text : String) (now : Int)
  | companyMsg (requestId msgId text : String) (now : Int)

/-- The message id an append operation generates. -/
def AppendOp.msgId : AppendOp → String
  | .clientMsg _ m _ _ => m
  | .companyMsg _ m _ _ => m

/-- The message an append operation builds. -/
def AppendOp.message : AppendOp → Message
  | .clientMsg _ m text now => { id := m, sender := .Client, text := text, timestamp := now }
  | .companyMsg _ m text now => { id := m, sender := .Company, text := text, timestamp := now }

/-- Run one append interaction against the collection. -/
def applyAppend (requests : List FuelingRequest) : AppendOp → List FuelingRequest
  | .clientMsg rid mid text now => clientSendMessage requests rid mid text now
  | .companyMsg rid mid text now => companySendMessage requests rid mid text now

/-- Run a sequence of append interactions against the collection. -/
def applyAppends (requests : List FuelingRequest) (ops : List AppendOp) :
    List FuelingRequest :=
  ops.foldl applyAppend requests

/-- Sample pending request used for concrete instantiations. -/
def sampleP1 : FuelingRequest :=
  { id := "p1", clientId := "client-1", standNumber := "S1", airline := "Air1",
    flightNumber := "F1", representativeName := "Rep1",
    status := .Pending, messages := [], hasUnreadUpdates := false }

/-- Second sample pending request of the same client. -/
def sampleP2 : FuelingRequest := { sampleP1 with id := "p2" }

/-- Sample confirmed request. -/
def sampleConfirmed : FuelingRequest := { sampleP1 with id := "cf", status := .Confirmed }

/-- Sample completed request. -/
def sampleCompleted : FuelingRequest := { sampleP1 with id := "cp", status := .Completed }

/-- Sample form data with a blank (whitespace-only) stand number. -/
def blankStandForm : FormData :=
  { standNumber := "  ", airline := "A", flightNumber := "F", representativeName := "R" }

/-- Sample fully filled form data. -/
def filledForm : FormData :=
  { standNumber := "B7", airline := "A", flightNumber := "F", representativeName := "R" }

/-! ### Helper lemmas about the store operations -/

theorem find?_split {α : Type u} (p : α → Bool) (l : List α) (a : α)
    (h : l.find? p = some a) :
    ∃ pre post, l = pre ++ a :: post ∧ ∀ x ∈ pre, p x = false := by
  induction l with
  | nil => simp at h
  | cons x t ih =>
    by_cases hx : p x
    · rw [List.find?_cons_of_pos _ hx] at h
      obtain rfl : x = a := by simpa using h
      exact ⟨[], t, rfl, by simp⟩
    · rw [List.find?_cons_of_neg _ hx] at h
      obtain ⟨pre, post, rfl, hpre⟩ := ih h
      refine ⟨x :: pre, post, rfl, ?_⟩
      intro y hy
      rcases List.mem_cons.mp hy with rfl | hy
      · simpa using hx
      · exact hpre y hy

theorem map_update_id (u : FuelingRequest) (m : List FuelingRequest)
    (hm : ∀ x ∈ m, x.id ≠ u.id) :
    m.map (fun r => if r.id = u.id then u else r) = m := by
  induction m with
  | nil => rfl
  | cons x t ih =>
    rw [List.map_cons, if_neg (hm x (List.mem_cons_self x t)),
      ih fun y hy => hm y (List.mem_cons_of_mem x hy)]

theorem updateRequest_not_found (u : FuelingRequest) (l : List FuelingRequest)
    (h : ∀ x ∈ l, x.id ≠ u.id) : updateRequest u l = l :=
  map_update_id u l h

theorem updateRequest_split (u old : FuelingRequest) (pre post : List FuelingRequest)
    (hold : old.id = u.id)
    (hpre : ∀ x ∈ pre, x.id ≠ u.id) (hpost : ∀ x ∈ post, x.id ≠ u.id) :
    updateRequest u (pre ++ old :: post) = pre ++ u :: post := by
  unfold updateRequest
  rw [List.map_append, List.map_cons, if_pos hold, map_update_id u pre hpre,
    map_update_id u post hpost]

theorem updateRequest_map_id (u : FuelingRequest) (l : List FuelingRequest) :
    (updateRequest u l).map FuelingRequest.id = l.map FuelingRequest.id := by
  unfold updateRequest
  rw [List.map_map]
  apply List.map_congr_left
  intro r _
  by_cases h : r.id = u.id
  · simp [Function.comp, h]
  · simp [Function.comp, h]

theorem nodup_split_ids (pre post : List FuelingRequest) (old : FuelingRequest)
    (h : ((pre ++ old :: post).map FuelingRequest.id).Nodup) :
    (∀ x ∈ pre, x.id ≠ old.id) ∧ ∀ x ∈ post, x.id ≠ old.id := by
  rw [List.map_append, List.nodup_append] at h
  obtain ⟨-, h2, hdisj⟩ := h
  rw [List.map_cons, List.nodup_cons] at h2
  constructor
  · intro x hx he
    exact hdisj (List.mem_map_of_mem _ hx)
      (by rw [he]; exact List.mem_cons_self _ _)
  · intro x hx he
    exact h2.1 (by rw [← he]; exact List.mem_map_of_mem _ hx)

theorem forall₂_split_right {α β : Type u} (R : α → β → Prop) :
    ∀ (pre : List β) (l : List α) (b : β) (post : List β),
      List.Forall₂ R l (pre ++ b :: post) →
      ∃ l₁ a l₂, l = l₁ ++ a :: l₂ ∧ List.Forall₂ R l₁ pre ∧ R a b ∧
        List.Forall₂ R l₂ post := by
  intro pre
  induction pre with
  | nil =>
    intro l b post h
    cases h with
    | cons ha ht => exact ⟨[], _, _, rfl, List.Forall₂.nil, ha, ht⟩
  | cons p pt ih =>
    intro l b post h
    cases h with
    | cons ha ht =>
      obtain ⟨l₁, a, l₂, rfl, h1, h2, h3⟩ := ih _ _ _ ht
      exact ⟨_ :: l₁, a, l₂, rfl, List.Forall₂.cons ha h1, h2, h3⟩

/-! ### C1 -/

/-- C1: the claim requires that a request whose status is Completed or
Cancelled is left unchanged by any invocation of the status-change handler,
including a direct programmatic one.  The code has no such guard: the guard
lives only in the disabled UI controls, and handleStatusChange applied to a
Completed request overwrites its status (and sets the unread flag). -/
theorem c1_terminal_transition_not_rejected :
    handleStatusChange [sampleCompleted] "cp" RequestStatus.Confirmed
      = [{ sampleCompleted with status := RequestStatus.Confirmed, hasUnreadUpdates := true }]
    ∧ handleStatusChange [sampleCompleted] "cp" RequestStatus.Confirmed
      ≠ [sampleCompleted] :=
  ⟨by decide, by decide⟩

/-! ### C2 -/

/-- C2 counterexample: with a malformed blob stored under the
persisted-collection key, the startup initializer propagates the parse error
instead of falling back to the seed dataset. -/
theorem c2_malformed_startup_fails :
    appInitRequests 0 StoredBlob.malformed = Except.error "SyntaxError"
    ∧ appInitRequests 0 StoredBlob.malformed ≠ Except.ok (initialRequests 0) :=
  ⟨rfl, fun h => Except.noConfusion h⟩

/-- C2 amended: an absent value falls back to the seed dataset and a parsed
document is used as stored, but a malformed value makes startup fail with
the uncaught deserialization error. -/
theorem c2_amended_startup_behavior : ∀ now : Int,
    appInitRequests now StoredBlob.absent = Except.ok (initialRequests now)
    ∧ appInitRequests now StoredBlob.malformed = Except.error "SyntaxError"
    ∧ ∀ rs, appInitRequests now (StoredBlob.parsed rs) = Except.ok rs :=
  fun _ => ⟨rfl, rfl, fun _ => rfl⟩

/-! ### C5 -/

theorem removeCompleted_count (l : List FuelingRequest) (r : FuelingRequest) :
    (removeCompleted l).count r
      = if r.status = RequestStatus.Completed then 0 else l.count r := by
  induction l with
  | nil => simp [removeCompleted]
  | cons x t ih =>
    by_cases hx : x.status = RequestStatus.Completed <;>
      by_cases hxr : x = r <;>
        simp_all [removeCompleted, List.filter_cons, List.count_cons]

/-- C5: clearing completed requests yields a list that is a sublist of the
original (so surviving requests are unchanged and keep their relative
order), contains no Completed request, and keeps every non-Completed request
with its exact multiplicity. -/
theorem c5_removeCompleted_spec : ∀ l : List FuelingRequest,
    (removeCompleted l).Sublist l
    ∧ (∀ r ∈ removeCompleted l, r.status ≠ RequestStatus.Completed)
    ∧ ∀ r : FuelingRequest,
        (removeCompleted l).count r
          = if r.status = RequestStatus.Completed then 0 else l.count r := by
  intro l
  refine ⟨List.filter_sublist l, ?_, removeCompleted_count l⟩
  intro r hr
  have := (List.mem_filter.mp hr).2
  simpa using this

/-- C5 witness at a concrete collection. -/
theorem c5_removeCompleted_witness : sampleP1.status ≠ RequestStatus.Completed :=
  (c5_removeCompleted_spec [sampleCompleted, sampleP1]).2.1 sampleP1 (by decide)

/-! ### C6 -/

theorem validateForm_count_eq_zero (fd : FormData) :
    (validateForm fd).count = 0 ↔
      trimString fd.standNumber ≠ "" ∧ trimString fd.airline ≠ "" ∧
        trimString fd.flightNumber ≠ "" ∧ trimString fd.representativeName ≠ "" := by
  unfold validateForm FormErrors.count
  by_cases h1 : trimString fd.standNumber = "" <;>
    by_cases h2 : trimString fd.airline = "" <;>
      by_cases h3 : trimString fd.flightNumber = "" <;>
        by_cases h4 : trimString fd.representativeName = "" <;>
          simp [h1, h2, h3, h4]

/-- C6: submitting the form with any of the four fields blank after trimming
leaves the store untouched, and validateForm reports an error exactly for
each blank field; with all four fields non-blank, the submission adds the
new request to the front of the store. -/
theorem c6_submit_validation :
    ∀ (fd : FormData) (newId clientId : String) (store : List FuelingRequest),
      ((validateForm fd).standNumber = some requiredFieldMessage ↔ trimString fd.standNumber = "")
      ∧ ((validateForm fd).airline = some requiredFieldMessage ↔ trimString fd.airline = "")
      ∧ ((validateForm fd).flightNumber = some requiredFieldMessage ↔ trimString fd.flightNumber = "")
      ∧ ((validateForm fd).representativeName = some requiredFieldMessage ↔
          trimString fd.representativeName = "")
      ∧ ((trimString fd.standNumber = "" ∨ trimString fd.airline = "" ∨ trimString fd.flightNumber = ""
            ∨ trimString fd.representativeName = "") →
          handleSubmit fd newId clientId store = store)
      ∧ (trimString fd.standNumber ≠ "" → trimString fd.airline ≠ "" → trimString fd.flightNumber ≠ "" →
          trimString fd.representativeName ≠ "" →
          handleSubmit fd newId clientId store = addRequest fd newId clientId store) := by
  intro fd newId clientId store
  refine ⟨?_, ?_, ?_, ?_, ?_, ?_⟩
  · by_cases h : trimString fd.standNumber = "" <;> simp [validateForm, h]
  · by_cases h : trimString fd.airline = "" <;> simp [validateForm, h]
  · by_cases h : trimString fd.flightNumber = "" <;> simp [validateForm, h]
  · by_cases h : trimString fd.representativeName = "" <;> simp [validateForm, h]
  · intro h
    rw [handleSubmit, if_neg]
    intro hc
    rw [validateForm_count_eq_zero] at hc
    tauto
  · intro h1 h2 h3 h4
    rw [handleSubmit, if_pos ((validateForm_count_eq_zero fd).mpr ⟨h1, h2, h3, h4⟩)]

/-- C6 witness: a blank stand number aborts the submission at a concrete
store, and a fully filled form adds the request. -/
theorem c6_submit_validation_witness :
    handleSubmit blankStandForm "new" "client-1" [sampleP1] = [sampleP1]
    ∧ handleSubmit filledForm "new" "client-1" [sampleP1]
      = addRequest filledForm "new" "client-1" [sampleP1] :=
  ⟨(c6_submit_validation blankStandForm "new" "client-1" [sampleP1]).2.2.2.2.1
      (Or.inl (by decide)),
   (c6_submit_validation filledForm "new" "client-1" [sampleP1]).2.2.2.2.2
     (by decide) (by decide) (by decide) (by decide)⟩

/-! ### C7 -/

/-- C7: update with a value whose id occurs exactly once replaces exactly
that element, leaving every other element and the order unchanged; update
with an id that occurs nowhere is the identity, and the operation is total
(it cannot raise). -/
theorem c7_update_semantics : ∀ u : FuelingRequest,
    (∀ (pre post : List FuelingRequest) (old : FuelingRequest),
        old.id = u.id → (∀ x ∈ pre, x.id ≠ u.id) → (∀ x ∈ post, x.id ≠ u.id) →
        updateRequest u (pre ++ old :: post) = pre ++ u :: post)
    ∧ ∀ l : List FuelingRequest, (∀ x ∈ l, x.id ≠ u.id) → updateRequest u l = l :=
  fun u =>
    ⟨fun pre post old hold hpre hpost => updateRequest_split u old pre post hold hpre hpost,
     fun l h => updateRequest_not_found u l h⟩

/-- C7 witness: replacing the one matching element, and the no-op on an
unknown id, at concrete collections. -/
theorem c7_update_semantics_witness :
    updateRequest { sampleConfirmed with status := RequestStatus.Completed }
        ([sampleP1] ++ sampleConfirmed :: [sampleP2])
      = [sampleP1] ++ { sampleConfirmed with status := RequestStatus.Completed } :: [sampleP2]
    ∧ updateRequest { sampleConfirmed with status := RequestStatus.Completed } [sampleP1]
      = [sampleP1] :=
  ⟨(c7_update_semantics _).1 [sampleP1] [sampleP2] sampleConfirmed
      (by decide) (by decide) (by decide),
   (c7_update_semantics _).2 [sampleP1] (by decide)⟩

/-! ### C8 -/

/-- C8 counterexample: a quota-exceeded write is not caught anywhere, so the
persistence effect propagates the error instead of logging and
continuing. -/
theorem c8_quota_failure_uncaught :
    persistRequestsEffect { fuelingRequests := none, quotaExceeded := true }
        (initialRequests 0)
      = Except.error "QuotaExceededError" := rfl

/-- C8 amended: when the write fits the quota the commit stores the full
collection; when it does not, the QuotaExceededError propagates uncaught out
of the persistence effect (nothing catches or logs it), while the failed
write itself does not alter the collection value that was passed in. -/
theorem c8_amended_persist_behavior : ∀ (st : AppState) (rs : List FuelingRequest),
    (st.storage.quotaExceeded = false →
      commitRequests st rs
        = Except.ok { requests := rs, storage := { st.storage with fuelingRequests := some rs } })
    ∧ (st.storage.quotaExceeded = true →
        commitRequests st rs = Except.error "QuotaExceededError") := by
  intro st rs
  constructor <;> intro h <;>
    simp [commitRequests, persistRequestsEffect, h, Except.map]

/-- C8 witness at a concrete state, both outcomes. -/
theorem c8_amended_persist_behavior_witness :
    commitRequests ⟨[], ⟨none, false⟩⟩ [sampleP1]
      = Except.ok ⟨[sampleP1], ⟨some [sampleP1], false⟩⟩
    ∧ commitRequests ⟨[], ⟨none, true⟩⟩ [sampleP1]
      = Except.error "QuotaExceededError" :=
  ⟨(c8_amended_persist_behavior ⟨[], ⟨none, false⟩⟩ [sampleP1]).1 rfl,
   (c8_amended_persist_behavior ⟨[], ⟨none, true⟩⟩ [sampleP1]).2 rfl⟩

/-! ### C10 -/

/-- C10: on first use the requester-identifier operation generates and
persists the fresh identifier; on any later call with no external change of
the store, it returns the first result again and leaves the stored value as
it is.  The one hypothesis models that uuidv4 never returns the empty
string (the source tests JavaScript falsiness). -/
theorem c10_requester_id_stable :
    ∀ (stored : Option String) (f1 f2 : String), f1 ≠ "" →
      getClientId none f1 = (f1, some f1)
      ∧ getClientId (getClientId stored f1).2 f2 = getClientId stored f1 := by
  intro stored f1 f2 h1
  refine ⟨rfl, ?_⟩
  match stored with
  | none => simp [getClientId, h1]
  | some s =>
    by_cases hs : s = ""
    · simp [getClientId, hs, h1]
    · simp [getClientId, hs]

/-- C10 witness: concrete first and second calls. -/
theorem c10_requester_id_stable_witness :
    getClientId none "uuid-1" = ("uuid-1", some "uuid-1")
    ∧ getClientId (getClientId (some "") "uuid-1").2 "uuid-2"
      = getClientId (some "") "uuid-1" :=
  c10_requester_id_stable (some "") "uuid-1" "uuid-2" (by decide)

/-! ### Match equations for the find-then-update handlers -/

theorem handleStatusChange_none (l : List FuelingRequest) (id : String)
    (st : RequestStatus) (h : l.find? (fun r => r.id = id) = none) :
    handleStatusChange l id st = l := by
  unfold handleStatusChange
  rw [h]

theorem handleStatusChange_some (l : List FuelingRequest) (id : String)
    (st : RequestStatus) (target : FuelingRequest)
    (h : l.find? (fun r => r.id = id) = some target) :
    handleStatusChange l id st
      = updateRequest { target with status := st, hasUnreadUpdates := true } l := by
  unfold handleStatusChange
  rw [h]

theorem companySendMessage_none (l : List FuelingRequest) (rid mid txt : String)
    (now : Int) (h : l.find? (fun r => r.id = rid) = none) :
    companySendMessage l rid mid txt now = l := by
  unfold companySendMessage
  rw [h]

theorem companySendMessage_some (l : List FuelingRequest) (rid mid txt : String)
    (now : Int) (target : FuelingRequest)
    (h : l.find? (fun r => r.id = rid) = some target) :
    companySendMessage l rid mid txt now
      = updateRequest
          { target with
              messages := target.messages ++
                [{ id := mid, sender := .Company, text := txt, timestamp := now }],
              hasUnreadUpdates := true } l := by
  unfold companySendMessage
  rw [h]

theorem clientSendMessage_none (l : List FuelingRequest) (rid mid txt : String)
    (now : Int) (h : l.find? (fun r => r.id = rid) = none) :
    clientSendMessage l rid mid txt now = l := by
  unfold clientSendMessage
  rw [h]

theorem clientSendMessage_some (l : List FuelingRequest) (rid mid txt : String)
    (now : Int) (target : FuelingRequest)
    (h : l.find? (fun r => r.id = rid) = some target) :
    clientSendMessage l rid mid txt now
      = updateRequest
          { target with
              messages := target.messages ++
                [{ id := mid, sender := .Client, text := txt, timestamp := now }] } l := by
  unfold clientSendMessage
  rw [h]

/-! ### C4 -/

/-- C4: an operator status change sets the unread flag on the targeted
request unconditionally, an operator message append sets it as well, and a
requester message append leaves every request's flag exactly as it was (the
flag hypothesis of the third part is the data-model invariant that request
ids are unique). -/
theorem c4_unread_flag_semantics :
    ∀ (l : List FuelingRequest) (id mid txt : String) (st : RequestStatus) (now : Int),
      (∀ x ∈ handleStatusChange l id st, x.id = id → x.hasUnreadUpdates = true)
      ∧ (∀ x ∈ companySendMessage l id mid txt now, x.id = id → x.hasUnreadUpdates = true)
      ∧ ((l.map FuelingRequest.id).Nodup →
          (clientSendMessage l id mid txt now).map FuelingRequest.hasUnreadUpdates
            = l.map FuelingRequest.hasUnreadUpdates) := by
  intro l id mid txt st now
  refine ⟨?_, ?_, ?_⟩
  · intro x hx hxid
    cases hfind : l.find? (fun r => r.id = id) with
    | none =>
      rw [handleStatusChange_none l id st hfind] at hx
      have := List.find?_eq_none.mp hfind x hx
      simp [hxid] at this
    | some target =>
      rw [handleStatusChange_some l id st target hfind] at hx
      have htid : target.id = id := by simpa using List.find?_some hfind
      unfold updateRequest at hx
      obtain ⟨y, hy, hxy⟩ := List.mem_map.mp hx
      by_cases hyid : y.id = target.id
      · rw [if_pos hyid] at hxy
        rw [← hxy]
      · rw [if_neg hyid] at hxy
        rw [← hxy] at hxid
        exact absurd (hxid.trans htid.symm) hyid
  · intro x hx hxid
    cases hfind : l.find? (fun r => r.id = id) with
    | none =>
      rw [companySendMessage_none l id mid txt now hfind] at hx
      have := List.find?_eq_none.mp hfind x hx
      simp [hxid] at this
    | some target =>
      rw [companySendMessage_some l id mid txt now target hfind] at hx
      have htid : target.id = id := by simpa using List.find?_some hfind
      unfold updateRequest at hx
      obtain ⟨y, hy, hxy⟩ := List.mem_map.mp hx
      by_cases hyid : y.id = target.id
      · rw [if_pos hyid] at hxy
        rw [← hxy]
      · rw [if_neg hyid] at hxy
        rw [← hxy] at hxid
        exact absurd (hxid.trans htid.symm) hyid
  · intro hnd
    cases hfind : l.find? (fun r => r.id = id) with
    | none => rw [clientSendMessage_none l id mid txt now hfind]
    | some target =>
      rw [clientSendMessage_some l id mid txt now target hfind]
      obtain ⟨pre, post, hl, hpre⟩ := find?_split _ l target hfind
      subst hl
      obtain ⟨hpre2, hpost2⟩ := nodup_split_ids pre post target hnd
      rw [updateRequest_split
        { target with
            messages := target.messages ++
              [{ id := mid, sender := .Client, text := txt, timestamp := now }] }
        target pre post rfl hpre2 hpost2]
      simp

/-- C4 witness: concrete operator status change, operator append, and
requester append. -/
theorem c4_unread_flag_semantics_witness :
    ({ sampleConfirmed with status := RequestStatus.Completed, hasUnreadUpdates := true
      } : FuelingRequest).hasUnreadUpdates = true
    ∧ (clientSendMessage [sampleConfirmed] "cf" "m9" "hello" 7).map
        FuelingRequest.hasUnreadUpdates
      = [sampleConfirmed].map FuelingRequest.hasUnreadUpdates :=
  ⟨(c4_unread_flag_semantics [sampleConfirmed] "cf" "m9" "hello"
        RequestStatus.Completed 7).1 _ (by decide) (by decide),
   (c4_unread_flag_semantics [sampleConfirmed] "cf" "m9" "hello"
        RequestStatus.Completed 7).2.2 (by decide)⟩

/-! ### C9 helper lemmas -/

theorem AppendOp.message_id (op : AppendOp) : op.message.id = op.msgId := by
  cases op <;> rfl

theorem applyAppend_eq (cur : List FuelingRequest) (op : AppendOp)
    (hnd : (cur.map FuelingRequest.id).Nodup) :
    applyAppend cur op = cur ∨
      ∃ pre target post, cur = pre ++ target :: post ∧
        ∃ upd : FuelingRequest,
          applyAppend cur op = pre ++ upd :: post
          ∧ upd.id = target.id
          ∧ upd.messages = target.messages ++ [op.message] := by
  cases op with
  | clientMsg rid mid txt t =>
    cases hfind : cur.find? (fun r => r.id = rid) with
    | none => exact Or.inl (clientSendMessage_none cur rid mid txt t hfind)
    | some target =>
      obtain ⟨pre, post, hl, -⟩ := find?_split _ cur target hfind
      refine Or.inr ⟨pre, target, post, hl, ?_⟩
      refine ⟨{ target with
          messages := target.messages ++
            [{ id := mid, sender := .Client, text := txt, timestamp := t }] },
        ?_, rfl, rfl⟩
      rw [show applyAppend cur (AppendOp.clientMsg rid mid txt t)
          = clientSendMessage cur rid mid txt t from rfl,
        clientSendMessage_some cur rid mid txt t target hfind]
      subst hl
      obtain ⟨hpre2, hpost2⟩ := nodup_split_ids pre post target hnd
      exact updateRequest_split _ target pre post rfl hpre2 hpost2
  | companyMsg rid mid txt t =>
    cases hfind : cur.find? (fun r => r.id = rid) with
    | none => exact Or.inl (companySendMessage_none cur rid mid txt t hfind)
    | some target =>
      obtain ⟨pre, post, hl, -⟩ := find?_split _ cur target hfind
      refine Or.inr ⟨pre, target, post, hl, ?_⟩
      refine ⟨{ target with
          messages := target.messages ++
            [{ id := mid, sender := .Company, text := txt, timestamp := t }],
          hasUnreadUpdates := true },
        ?_, rfl, rfl⟩
      rw [show applyAppend cur (AppendOp.companyMsg rid mid txt t)
          = companySendMessage cur rid mid txt t from rfl,
        companySendMessage_some cur rid mid txt t target hfind]
      subst hl
      obtain ⟨hpre2, hpost2⟩ := nodup_split_ids pre post target hnd
      exact updateRequest_split _ target pre post rfl hpre2 hpost2

theorem applyAppend_map_id (cur : List FuelingRequest) (op : AppendOp) :
    (applyAppend cur op).map FuelingRequest.id = cur.map FuelingRequest.id := by
  cases op with
  | clientMsg rid mid txt t =>
    cases hfind : cur.find? (fun r => r.id = rid) with
    | none =>
      rw [show applyAppend cur (AppendOp.clientMsg rid mid txt t)
          = clientSendMessage cur rid mid txt t from rfl,
        clientSendMessage_none cur rid mid txt t hfind]
    | some target =>
      rw [show applyAppend cur (AppendOp.clientMsg rid mid txt t)
          = clientSendMessage cur rid mid txt t from rfl,
        clientSendMessage_some cur rid mid txt t target hfind,
        updateRequest_map_id]
  | companyMsg rid mid txt t =>
    cases hfind : cur.find? (fun r => r.id = rid) with
    | none =>
      rw [show applyAppend cur (AppendOp.companyMsg rid mid txt t)
          = companySendMessage cur rid mid txt t from rfl,
        companySendMessage_none cur rid mid txt t hfind]
    | some target =>
      rw [show applyAppend cur (AppendOp.companyMsg rid mid txt t)
          = companySendMessage cur rid mid txt t from rfl,
        companySendMessage_some cur rid mid txt t target hfind,
        updateRequest_map_id]

theorem applyAppend_inv_step (op : AppendOp) (ops : List AppendOp)
    (orig cur : List FuelingRequest)
    (hnd : (cur.map FuelingRequest.id).Nodup)
    (hmid : op.msgId ∉ ops.map AppendOp.msgId)
    (hinv : List.Forall₂
      (fun r r₁ => r.id = r₁.id ∧ r.messages <+: r₁.messages
        ∧ (r₁.messages.map Message.id).Nodup
        ∧ ∀ o ∈ op :: ops, AppendOp.msgId o ∉ r₁.messages.map Message.id)
      orig cur) :
    List.Forall₂
      (fun r r₁ => r.id = r₁.id ∧ r.messages <+: r₁.messages
        ∧ (r₁.messages.map Message.id).Nodup
        ∧ ∀ o ∈ ops, AppendOp.msgId o ∉ r₁.messages.map Message.id)
      orig (applyAppend cur op) := by
  rcases applyAppend_eq cur op hnd with heq | ⟨pre, target, post, hl, upd, heq, hid, hmsgs⟩
  · rw [heq]
    exact hinv.imp fun a b h =>
      ⟨h.1, h.2.1, h.2.2.1, fun o ho => h.2.2.2 o (List.mem_cons_of_mem _ ho)⟩
  · subst hl
    rw [heq]
    obtain ⟨l₁, a, l₂, rfl, h1, hR, h2⟩ := forall₂_split_right _ pre orig target post hinv
    have weaken : ∀ (x y : FuelingRequest),
        (x.id = y.id ∧ x.messages <+: y.messages
          ∧ (y.messages.map Message.id).Nodup
          ∧ ∀ o ∈ op :: ops, AppendOp.msgId o ∉ y.messages.map Message.id) →
        (x.id = y.id ∧ x.messages <+: y.messages
          ∧ (y.messages.map Message.id).Nodup
          ∧ ∀ o ∈ ops, AppendOp.msgId o ∉ y.messages.map Message.id) :=
      fun x y h => ⟨h.1, h.2.1, h.2.2.1, fun o ho => h.2.2.2 o (List.mem_cons_of_mem _ ho)⟩
    refine List.rel_append (h1.imp weaken) (List.Forall₂.cons ?_ (h2.imp weaken))
    refine ⟨hR.1.trans hid.symm, ?_, ?_, ?_⟩
    · rw [hmsgs]
      exact hR.2.1.trans (target.messages.prefix_append _)
    · rw [hmsgs, List.map_append]
      refine List.nodup_append.mpr ⟨hR.2.2.1, List.nodup_singleton _, ?_⟩
      intro b hb hbmem
      simp only [List.map_cons, List.map_nil, List.mem_singleton,
        AppendOp.message_id] at hbmem
      exact hR.2.2.2 op (List.mem_cons_self _ _) (hbmem ▸ hb)
    · intro o ho
      rw [hmsgs, List.map_append]
      intro hmem
      rcases List.mem_append.mp hmem with hmem | hmem
      · exact hR.2.2.2 o (List.mem_cons_of_mem _ ho) hmem
      · simp only [List.map_cons, List.map_nil, List.mem_singleton,
          AppendOp.message_id] at hmem
        exact hmid (hmem ▸ List.mem_map_of_mem AppendOp.msgId ho)

theorem applyAppends_inv : ∀ (ops : List AppendOp) (orig cur : List FuelingRequest),
    (cur.map FuelingRequest.id).Nodup →
    (ops.map AppendOp.msgId).Nodup →
    List.Forall₂
      (fun r r₁ => r.id = r₁.id ∧ r.messages <+: r₁.messages
        ∧ (r₁.messages.map Message.id).Nodup
        ∧ ∀ o ∈ ops, AppendOp.msgId o ∉ r₁.messages.map Message.id)
      orig cur →
    List.Forall₂
      (fun r r₁ => r.id = r₁.id ∧ r.messages <+: r₁.messages
        ∧ (r₁.messages.map Message.id).Nodup)
      orig (applyAppends cur ops) := by
  intro ops
  induction ops with
  | nil =>
    intro orig cur _ _ h
    exact h.imp fun a b hh => ⟨hh.1, hh.2.1, hh.2.2.1⟩
  | cons op ops ih =>
    intro orig cur hnd hops hinv
    rw [List.map_cons, List.nodup_cons] at hops
    have hstep := applyAppend_inv_step op ops orig cur hnd hops.1 hinv
    show List.Forall₂ _ orig (applyAppends (applyAppend cur op) ops)
    exact ih orig (applyAppend cur op)
      (by rw [applyAppend_map_id]; exact hnd) hops.2 hstep

/-! ### C9 -/

/-- C9: starting from a collection with unique request ids and unique
message ids inside each request, any sequence of message appends whose
generated ids are fresh (the uuidv4 contract) keeps every request's original
message list as a prefix of its final list — nothing is removed or
reordered — and keeps message ids unique within each request; moreover a
single append changes at most the targeted request, and only by appending
exactly the one new message at the end. -/
theorem c9_messages_append_only :
    (∀ (l : List FuelingRequest) (ops : List AppendOp),
      (l.map FuelingRequest.id).Nodup →
      (∀ r ∈ l, (r.messages.map Message.id).Nodup) →
      (ops.map AppendOp.msgId).Nodup →
      (∀ o ∈ ops, ∀ r ∈ l, AppendOp.msgId o ∉ r.messages.map Message.id) →
      List.Forall₂
        (fun r r₁ => r.id = r₁.id ∧ r.messages <+: r₁.messages
          ∧ (r₁.messages.map Message.id).Nodup)
        l (applyAppends l ops))
    ∧ ∀ (l : List FuelingRequest) (op : AppendOp),
        (l.map FuelingRequest.id).Nodup →
        List.Forall₂ (fun r r₁ => r₁ = r ∨ r₁.messages = r.messages ++ [op.message])
          l (applyAppend l op) := by
  constructor
  · intro l ops hnd hmsg hops hfresh
    apply applyAppends_inv ops l l hnd hops
    apply List.forall₂_same.mpr
    intro r hr
    exact ⟨rfl, List.prefix_rfl, hmsg r hr, fun o ho => hfresh o ho r hr⟩
  · intro l op hnd
    rcases applyAppend_eq l op hnd with heq | ⟨pre, target, post, hl, upd, heq, hid, hmsgs⟩
    · rw [heq]
      exact List.forall₂_same.mpr fun x _ => Or.inl rfl
    · subst hl
      rw [heq]
      refine List.rel_append ?_ (List.Forall₂.cons ?_ ?_)
      · exact List.forall₂_same.mpr fun x _ => Or.inl rfl
      · exact Or.inr hmsgs
      · exact List.forall₂_same.mpr fun x _ => Or.inl rfl

/-- C9 witness: a concrete two-append sequence from both roles. -/
theorem c9_messages_append_only_witness :
    List.Forall₂
      (fun r r₁ => r.id = r₁.id ∧ r.messages <+: r₁.messages
        ∧ (r₁.messages.map Message.id).Nodup)
      [sampleConfirmed]
      (applyAppends [sampleConfirmed]
        [AppendOp.clientMsg "cf" "m1" "hello" 1, AppendOp.companyMsg "cf" "m2" "ok" 2]) :=
  c9_messages_append_only.1 [sampleConfirmed]
    [AppendOp.clientMsg "cf" "m1" "hello" 1, AppendOp.companyMsg "cf" "m2" "ok" 2]
    (by decide) (by decide) (by decide) (by decide)

/-! ### Sort model lemmas for C3 -/

theorem pendingComparator_neg (a b : FuelingRequest)
    (h : a.status = RequestStatus.Pending) : pendingComparator a b < 0 := by
  unfold pendingComparator
  rw [if_pos h]
  decide

theorem pendingComparator_nonneg (a b : FuelingRequest)
    (h : ¬ a.status = RequestStatus.Pending) : 0 ≤ pendingComparator a b := by
  unfold pendingComparator
  rw [if_neg h]
  decide

theorem binSearchGo_of_neg {α : Type u} (c : α → α → Int) (pivot : α) (arr : List α)
    (h : ∀ y, c pivot y < 0) :
    ∀ (fuel lo hi : Nat), binSearchGo c pivot arr fuel lo hi = lo := by
  intro fuel
  induction fuel with
  | zero => intro lo hi; rfl
  | succ n ih =>
    intro lo hi
    unfold binSearchGo
    by_cases hlt : lo < hi
    · rw [if_pos hlt]
      dsimp only
      rw [if_pos (h _)]
      exact ih lo _
    · rw [if_neg hlt]

theorem binSearchGo_of_nonneg {α : Type u} (c : α → α → Int) (pivot : α) (arr : List α)
    (h : ∀ y, 0 ≤ c pivot y) :
    ∀ (fuel lo hi : Nat), hi - lo ≤ fuel → lo ≤ hi →
      binSearchGo c pivot arr fuel lo hi = hi := by
  intro fuel
  induction fuel with
  | zero =>
    intro lo hi h1 h2
    have h3 : lo = hi := by omega
    subst h3
    rfl
  | succ n ih =>
    intro lo hi h1 h2
    unfold binSearchGo
    by_cases hlt : lo < hi
    · rw [if_pos hlt]
      dsimp only
      rw [if_neg (by have := h (arr.getD ((lo + hi) / 2) pivot); omega)]
      exact ih ((lo + hi) / 2 + 1) hi (by omega) (by omega)
    · rw [if_neg hlt]
      omega

theorem binaryInsert_of_pending (sorted : List FuelingRequest) (x : FuelingRequest)
    (hx : x.status = RequestStatus.Pending) :
    binaryInsert pendingComparator sorted x = x :: sorted := by
  unfold binaryInsert binSearchPos insertAtIdx
  rw [binSearchGo_of_neg pendingComparator x sorted
    (fun y => pendingComparator_neg x y hx)]
  simp

theorem binaryInsert_of_nonpending (sorted : List FuelingRequest) (x : FuelingRequest)
    (hx : ¬ x.status = RequestStatus.Pending) :
    binaryInsert pendingComparator sorted x = sorted ++ [x] := by
  unfold binaryInsert binSearchPos insertAtIdx
  rw [binSearchGo_of_nonneg pendingComparator x sorted
    (fun y => pendingComparator_nonneg x y hx) sorted.length 0 sorted.length
    (by omega) (by omega)]
  simp

theorem foldl_binaryInsert_shape :
    ∀ (rest P N : List FuelingRequest),
      (∀ a ∈ P, a.status = RequestStatus.Pending) →
      (∀ b ∈ N, ¬ b.status = RequestStatus.Pending) →
      rest.foldl (binaryInsert pendingComparator) (P ++ N)
        = ((rest.filter (fun r => r.status = RequestStatus.Pending)).reverse ++ P)
          ++ (N ++ rest.filter (fun r => ¬ r.status = RequestStatus.Pending)) := by
  intro rest
  induction rest with
  | nil => intro P N _ _; simp
  | cons x rest ih =>
    intro P N hP hN
    rw [List.foldl_cons]
    by_cases hx : x.status = RequestStatus.Pending
    · rw [show binaryInsert pendingComparator (P ++ N) x = (x :: P) ++ N from by
        rw [binaryInsert_of_pending _ _ hx]; rfl]
      rw [ih (x :: P) N ?hp hN]
      case hp =>
        intro a ha
        rcases List.mem_cons.mp ha with rfl | ha
        · exact hx
        · exact hP a ha
      simp [List.filter_cons, hx, List.append_assoc]
    · rw [show binaryInsert pendingComparator (P ++ N) x = P ++ (N ++ [x]) from by
        rw [binaryInsert_of_nonpending _ _ hx, List.append_assoc]]
      rw [ih P (N ++ [x]) hP ?hn]
      case hn =>
        intro b hb
        rcases List.mem_append.mp hb with hb | hb
        · exact hN b hb
        · rw [List.mem_singleton] at hb
          subst hb
          exact hx
      simp [List.filter_cons, hx, List.append_assoc]

theorem descRun_eq (zs : List FuelingRequest) :
    ∀ prev, descRun pendingComparator prev zs
      = (zs.takeWhile (fun r => r.status = RequestStatus.Pending),
         zs.dropWhile (fun r => r.status = RequestStatus.Pending)) := by
  induction zs with
  | nil => intro prev; rfl
  | cons z zs ih =>
    intro prev
    by_cases hz : z.status = RequestStatus.Pending
    · unfold descRun
      rw [if_pos (pendingComparator_neg z prev hz)]
      dsimp only
      rw [ih z]
      simp [List.takeWhile_cons, List.dropWhile_cons, hz]
    · unfold descRun
      rw [if_neg (by have := pendingComparator_nonneg z prev hz; omega)]
      simp [List.takeWhile_cons, List.dropWhile_cons, hz]

theorem ascRun_eq (zs : List FuelingRequest) :
    ∀ prev, ascRun pendingComparator prev zs
      = (zs.takeWhile (fun r => ¬ r.status = RequestStatus.Pending),
         zs.dropWhile (fun r => ¬ r.status = RequestStatus.Pending)) := by
  induction zs with
  | nil => intro prev; rfl
  | cons z zs ih =>
    intro prev
    by_cases hz : z.status = RequestStatus.Pending
    · unfold ascRun
      rw [if_pos (pendingComparator_neg z prev hz)]
      simp [List.takeWhile_cons, List.dropWhile_cons, hz]
    · unfold ascRun
      rw [if_neg (by have := pendingComparator_nonneg z prev hz; omega)]
      dsimp only
      rw [ih z]
      simp [List.takeWhile_cons, List.dropWhile_cons, hz]

theorem engineSort_pendingComparator :
    ∀ l : List FuelingRequest,
      engineSort pendingComparator l
        = (l.filter (fun r => r.status = RequestStatus.Pending)).reverse
          ++ l.filter (fun r => ¬ r.status = RequestStatus.Pending)
  | [] => rfl
  | [x] => by
    by_cases hx : x.status = RequestStatus.Pending <;>
      simp [engineSort, makeAscendingRun, List.filter_cons, hx]
  | x :: y :: rest => by
    simp only [engineSort, makeAscendingRun]
    by_cases hy : y.status = RequestStatus.Pending
    · rw [if_pos (pendingComparator_neg y x hy)]
      dsimp only
      rw [descRun_eq rest y]
      dsimp only
      set tw := rest.takeWhile (fun r => r.status = RequestStatus.Pending) with htw_def
      set dw := rest.dropWhile (fun r => r.status = RequestStatus.Pending) with hdw_def
      have hrest : tw ++ dw = rest := List.takeWhile_append_dropWhile _ _
      have htw : ∀ a ∈ tw, a.status = RequestStatus.Pending := by
        intro a ha
        rw [htw_def] at ha
        simpa using List.mem_takeWhile_imp ha
      have htwP : tw.filter (fun r => r.status = RequestStatus.Pending) = tw :=
        List.filter_eq_self.mpr fun a ha => by simp [htw a ha]
      have htwN : tw.filter (fun r => ¬ r.status = RequestStatus.Pending) = [] :=
        List.filter_eq_nil_iff.mpr fun a ha => by simp [htw a ha]
      rw [← hrest]
      by_cases hx : x.status = RequestStatus.Pending
      · rw [show (x :: y :: tw).reverse = (x :: y :: tw).reverse ++ [] from
          (List.append_nil _).symm]
        rw [foldl_binaryInsert_shape dw ((x :: y :: tw).reverse) [] ?hp ?hn]
        case hp =>
          intro a ha
          rw [List.mem_reverse] at ha
          rcases List.mem_cons.mp ha with rfl | ha
          · exact hx
          rcases List.mem_cons.mp ha with rfl | ha
          · exact hy
          · exact htw a ha
        case hn => intro b hb; simp at hb
        simp [List.filter_cons, List.filter_append, hx, hy, htwP, htwN,
          List.append_assoc]
        exact htw
      · rw [List.reverse_cons]
        rw [foldl_binaryInsert_shape dw ((y :: tw).reverse) [x] ?hp ?hn]
        case hp =>
          intro a ha
          rw [List.mem_reverse] at ha
          rcases List.mem_cons.mp ha with rfl | ha
          · exact hy
          · exact htw a ha
        case hn =>
          intro b hb
          rw [List.mem_singleton] at hb
          subst hb
          exact hx
        simp [List.filter_cons, List.filter_append, hx, hy, htwP, htwN,
          List.append_assoc]
        exact htw
    · rw [if_neg (by have := pendingComparator_nonneg y x hy; omega)]
      dsimp only
      rw [ascRun_eq rest y]
      dsimp only
      set tw := rest.takeWhile (fun r => ¬ r.status = RequestStatus.Pending) with htw_def
      set dw := rest.dropWhile (fun r => ¬ r.status = RequestStatus.Pending) with hdw_def
      have hrest : tw ++ dw = rest := List.takeWhile_append_dropWhile _ _
      have htw : ∀ a ∈ tw, ¬ a.status = RequestStatus.Pending := by
        intro a ha
        rw [htw_def] at ha
        simpa using List.mem_takeWhile_imp ha
      have htwP : tw.filter (fun r => r.status = RequestStatus.Pending) = [] :=
        List.filter_eq_nil_iff.mpr fun a ha => by simp [htw a ha]
      have htwN : tw.filter (fun r => ¬ r.status = RequestStatus.Pending) = tw :=
        List.filter_eq_self.mpr fun a ha => by simp [htw a ha]
      rw [← hrest]
      by_cases hx : x.status = RequestStatus.Pending
      · rw [show x :: y :: tw = [x] ++ (y :: tw) from rfl]
        rw [foldl_binaryInsert_shape dw [x] (y :: tw) ?hp ?hn]
        case hp =>
          intro a ha
          rw [List.mem_singleton] at ha
          subst ha
          exact hx
        case hn =>
          intro b hb
          rcases List.mem_cons.mp hb with rfl | hb
          · exact hy
          · exact htw b hb
        simp [List.filter_cons, List.filter_append, hx, hy, htwP, htwN,
          List.append_assoc]
        exact (List.filter_eq_self.mpr fun a ha => by simp [htw a ha]).symm
      · rw [show x :: y :: tw = [] ++ (x :: y :: tw) from rfl]
        rw [foldl_binaryInsert_shape dw [] (x :: y :: tw) ?hp ?hn]
        case hp => intro a ha; simp at ha
        case hn =>
          intro b hb
          rcases List.mem_cons.mp hb with rfl | hb
          · exact hx
          rcases List.mem_cons.mp hb with rfl | hb
          · exact hy
          · exact htw b hb
        simp [List.filter_cons, List.filter_append, hx, hy, htwP, htwN,
          List.append_assoc]
        exact (List.filter_eq_self.mpr fun a ha => by simp [htw a ha]).symm

/-! ### C3 -/

/-- C3 counterexample: the claim says the Pending group keeps store order,
but with two Pending requests of the same client the visible list comes out
reversed — the sort comparator never returns 0 and ignores its second
argument, so it is inconsistent and the engine reverses the Pending
group. -/
theorem c3_pending_group_not_stable :
    clientRequests [sampleP1, sampleP2] "client-1" = [sampleP2, sampleP1]
    ∧ clientRequests [sampleP1, sampleP2] "client-1" ≠ [sampleP1, sampleP2] :=
  ⟨by decide, by decide⟩

/-- C3 amended: the Requester View shows exactly the requests of this
device's client id, all Pending ones first; the non-Pending group keeps
store order, while the Pending group appears in reverse store order (under
the modelled engine sort; the inconsistent comparator makes the order
implementation-defined in general).  The Operator View shows the entire
collection unfiltered in store order. -/
theorem c3_amended_visible_lists : ∀ (requests : List FuelingRequest) (clientId : String),
    clientRequests requests clientId
      = ((requests.filter (fun r => r.clientId = clientId)).filter
            (fun r => r.status = RequestStatus.Pending)).reverse
        ++ (requests.filter (fun r => r.clientId = clientId)).filter
            (fun r => ¬ r.status = RequestStatus.Pending)
    ∧ companyVisibleRequests requests = requests := by
  intro requests clientId
  refine ⟨?_, rfl⟩
  unfold clientRequests
  exact engineSort_pendingComparator _
